import Mathlib

/-!
Verification of the pipeline-orchestration engine of the auto-archiver
repository (src/src/auto_archiver/core/orchestrator.py), as a shallow
embedding.  The engine drives one Artifact Record (`Metadata`) through the
stages sanitize, rearchivable-check, cache lookup, fetch loop, enrich,
store-media walk, render and done, observed by a list of State Stores
(`Database`).  Calls to the pluggable components are recorded in an event
trace so that ordering and counting properties can be stated.

Python exceptions are modelled explicitly where the engine's control flow
depends on them: an Archiver's download and an Enricher's enrich may end
in an ordinary exception (caught by the fetch loop, fatal for a stage) or
in a KeyboardInterrupt (never caught inside archive).
-/

namespace AutoArchiver

/- A property value of a Media object: Python values inspected by the
store-media walk with isinstance checks (Media, list, anything else). -/
mutual

inductive Media where
  | mk (filename : String) (properties : List PropValue)

inductive PropValue where
  | scalar (s : String)
  | media (m : Media)
  | plist (l : List PropValue)

end

def Media.properties : Media → List PropValue
  | .mk _ ps => ps

def PropValue.isMedia : PropValue → Bool
  | .media _ => true
  | _ => false

/-- Modelled from the spec: the Artifact Record (class Metadata of
core/metadata.py, which is not under src/).  Spec section 3 lists its
fields: a primary URL, the original URL retained under a side key when
sanitization changes it, a rearchivable boolean, a success flag, an
ordered collection of Media objects and a final-summary Media reference. -/
structure Metadata where
  url : String
  original_url : Option String
  rearchivable : Bool
  success : Bool
  media : List Media
  final_media : Option Media

def Metadata.empty : Metadata :=
  { url := "", original_url := none, rearchivable := false,
    success := false, media := [], final_media := none }

/-- Modelled from the spec: Metadata.merge of core/metadata.py is not under
src/.  Spec section 3: the merge is defined key-by-key, scalar keys are
overwritten by the incoming record, collection-valued keys (the Media
list) are concatenated. -/
def Metadata.merge (self other : Metadata) : Metadata :=
  { url := other.url
    original_url := other.original_url.orElse (fun _ => self.original_url)
    rearchivable := other.rearchivable
    success := other.success
    media := self.media ++ other.media
    final_media := other.final_media.orElse (fun _ => self.final_media) }

/-- Modelled from the spec: Metadata.is_success of core/metadata.py is not
under src/; the record "reports success" through it. -/
def Metadata.is_success (m : Metadata) : Bool := m.success

/-- Outcome of one Archiver.download call: a returned record, an ordinary
Python exception (caught by the fetch loop), or a KeyboardInterrupt
(not an Exception subclass, hence never caught there). -/
inductive DownloadResult where
  | ok (m : Metadata)
  | error
  | interrupt

/-- Outcome of one Enricher.enrich call (the enrich loop has no handler, so
both failure kinds escape archive). -/
inductive EnrichResult where
  | ok (m : Metadata)
  | error
  | interrupt

/-- The Fetcher contract (class Archiver): sanitize_url, is_rearchivable
and download, as called by ArchivingOrchestrator.archive. -/
structure Archiver where
  sanitize_url : String → String
  is_rearchivable : String → Bool
  download : Metadata → DownloadResult

/-- The Enricher contract: enrich mutates the record in place; modelled as
returning the mutated record or an exception outcome. -/
structure Enricher where
  enrich : Metadata → EnrichResult

/-- The State Store contract (class Database).  Only fetch returns data to
the engine; started, done, failed and aborted are observations and appear
in the event trace. -/
structure Database where
  fetch : Metadata → Option Metadata

/-- The Persistence Sink contract (class Storage): store(media, result) is
an observation recorded in the trace, so the structure carries no data. -/
structure Storage where
  name : String

/-- The Renderer contract (class Formatter). -/
structure Formatter where
  format : Metadata → Option Media

/-- One observable call made by the engine to a pluggable component.
Component lists are indexed by registration order. -/
inductive Event where
  | started (i : Nat)
  | dbFetch (i : Nat)
  | done (i : Nat) (m : Metadata)
  | failed (i : Nat)
  | aborted (i : Nat)
  | download (j : Nat)
  | enrich (k : Nat)
  | store (s : Nat) (v : PropValue)

def Event.isDownload : Event → Bool
  | .download _ => true
  | _ => false

def Event.isStartedEv : Event → Bool
  | .started _ => true
  | _ => false

def Event.isFetchEv : Event → Bool
  | .dbFetch _ => true
  | _ => false

/-- Terminal transitions of an item, as observed by a State Store. -/
def Event.isTerminal : Event → Bool
  | .done _ _ => true
  | .failed _ => true
  | .aborted _ => true
  | _ => false

/-- Terminal transition observed by the State Store at index i. -/
def Event.isTerminalFor (i : Nat) : Event → Bool
  | .done j _ => j == i
  | .failed j => j == i
  | .aborted j => j == i
  | _ => false

/-- The ArchivingOrchestrator's configuration: the component lists held by
the class (its feeder is the sequence of items the run loop pulls). -/
structure ArchivingOrchestrator where
  feeder : List Metadata
  formatter : Formatter
  enrichers : List Enricher
  archivers : List Archiver
  databases : List Database
  storages : List Storage

/-- One event per element of a list, at consecutive indices from k. -/
def perIdx (f : Nat → Event) : List α → Nat → List Event
  | [], _ => []
  | _ :: xs, k => f k :: perIdx f xs (k + 1)

def doneEvts (dbs : List Database) (k : Nat) (m : Metadata) : List Event :=
  perIdx (fun i => Event.done i m) dbs k

def failedEvts (dbs : List Database) (k : Nat) : List Event :=
  perIdx Event.failed dbs k

def abortedEvts (dbs : List Database) (k : Nat) : List Event :=
  perIdx Event.aborted dbs k

/-- Stage 1 of archive: url = original_url; for a in archivers:
url = a.sanitize_url(url); result.set_url(url); if original_url != url:
result.set("original_url", original_url). -/
def sanitizeStage (archivers : List Archiver) (result : Metadata) : Metadata :=
  let url := archivers.foldl (fun u a => a.sanitize_url u) result.url
  if result.url ≠ url then
    { result with url := url, original_url := some result.url }
  else
    { result with url := url }

/-- Stage 2 of archive: for a in archivers:
result.rearchivable |= a.is_rearchivable(url), with url the sanitized URL
already set on the record. -/
def rearchStage (archivers : List Archiver) (result : Metadata) : Metadata :=
  { result with
      rearchivable :=
        archivers.foldl (fun b a => b || a.is_rearchivable result.url)
          result.rearchivable }

/-- The record as it stands when the cache lookup and the fetch loop start:
after stages 1 and 2 of archive. -/
def stage2 (o : ArchivingOrchestrator) (item : Metadata) : Metadata :=
  rearchStage o.archivers (sanitizeStage o.archivers item)

/-- The cache-lookup loop of archive: for d in databases: d.started(result);
if (local_result := d.fetch(result)):
cached_result = (cached_result or Metadata()).merge(local_result). -/
def cacheLookup : List Database → Nat → Option Metadata → Metadata →
    Option Metadata × List Event
  | [], _, acc, _ => (acc, [])
  | d :: ds, i, acc, r =>
    let acc2 := match d.fetch r with
      | some lr => some ((acc.getD Metadata.empty).merge lr)
      | none => acc
    let rest := cacheLookup ds (i + 1) acc2 r
    (rest.1, Event.started i :: Event.dbFetch i :: rest.2)

/-- The merged cache candidate produced by the cache-lookup loop. -/
def cacheCandidate (dbs : List Database) (r : Metadata) : Option Metadata :=
  (cacheLookup dbs 0 none r).1

/-- The event trace of the cache-lookup loop. -/
def cacheTrace (dbs : List Database) (r : Metadata) : List Event :=
  (cacheLookup dbs 0 none r).2

/-- Whether archive short-circuits: cached_result is truthy and
cached_result.rearchivable is false. -/
def shortCircuitB (dbs : List Database) (r : Metadata) : Bool :=
  match cacheCandidate dbs r with
  | some cc => !cc.rearchivable
  | none => false

/-- The fetch loop of archive: for a in archivers:
try: result.merge(a.download(result)); if result.is_success(): break
except Exception: log and continue.  A KeyboardInterrupt is not an
Exception, so it ends the loop and escapes (third component true). -/
def fetchLoop : List Archiver → Nat → Metadata → Metadata × List Event × Bool
  | [], _, m => (m, [], false)
  | a :: as, j, m =>
    match a.download m with
    | .ok r =>
      let m2 := m.merge r
      if m2.is_success then (m2, [Event.download j], false)
      else
        let rest := fetchLoop as (j + 1) m2
        (rest.1, Event.download j :: rest.2.1, rest.2.2)
    | .error =>
      let rest := fetchLoop as (j + 1) m
      (rest.1, Event.download j :: rest.2.1, rest.2.2)
    | .interrupt => (m, [Event.download j], true)

/-- Outcome of one stage loop without a local handler. -/
inductive StageOutcome where
  | ok
  | error
  | interrupt

/-- The enrich loop of archive: for e in enrichers: e.enrich(result), with
no handler, so an exception or interrupt ends archive. -/
def enrichLoop : List Enricher → Nat → Metadata →
    Metadata × List Event × StageOutcome
  | [], _, m => (m, [], StageOutcome.ok)
  | e :: es, k, m =>
    match e.enrich m with
    | .ok m2 =>
      let rest := enrichLoop es (k + 1) m2
      (rest.1, Event.enrich k :: rest.2.1, rest.2.2)
    | .error => (m, [Event.enrich k], StageOutcome.error)
    | .interrupt => (m, [Event.enrich k], StageOutcome.interrupt)

/-- The store-media walk for one top-level Media object: s.store(m, result),
then for each property value: a Media is stored; a non-empty list whose
first element is a Media has every element stored. -/
def storeProps (si : Nat) : List PropValue → List Event
  | [] => []
  | p :: ps =>
    (match p with
      | .media _ => [Event.store si p]
      | .plist l =>
        (match l with
          | q :: _ =>
            (match q with
              | .media _ => l.map (Event.store si)
              | _ => [])
          | [] => [])
      | .scalar _ => []) ++ storeProps si ps

def storeOne (si : Nat) (m : Media) : List Event :=
  Event.store si (PropValue.media m) :: storeProps si m.properties

def storeMediaList (si : Nat) : List Media → List Event
  | [] => []
  | m :: ms => storeOne si m ++ storeMediaList si ms

/-- Stage 5 of archive: for s in storages: for m in result.media: the walk. -/
def storeStage : List Storage → Nat → Metadata → List Event
  | [], _, _ => []
  | _ :: ss, si, r => storeMediaList si r.media ++ storeStage ss (si + 1) r

/-- Stage 6 of archive: s.store(final_media, result) on every storage. -/
def storeFinalEvts (stgs : List Storage) (k : Nat) (fm : Media) : List Event :=
  perIdx (fun i => Event.store i (PropValue.media fm)) stgs k

/-- How one call to archive ends: a returned record, an exception that
escapes to feed_item, or a KeyboardInterrupt that escapes to feed_item. -/
inductive ArchiveOutcome where
  | ok (m : Metadata)
  | failedE
  | interrupted

/-- Stages 3 to 8 of archive after the short-circuit decision. -/
def archiveRest (o : ArchivingOrchestrator) (r2 : Metadata)
    (dbTr : List Event) : ArchiveOutcome × List Event :=
  let f := fetchLoop o.archivers 0 r2
  if f.2.2 then (ArchiveOutcome.interrupted, dbTr ++ f.2.1)
  else
    let e := enrichLoop o.enrichers 0 f.1
    match e.2.2 with
    | StageOutcome.error => (ArchiveOutcome.failedE, dbTr ++ f.2.1 ++ e.2.1)
    | StageOutcome.interrupt =>
      (ArchiveOutcome.interrupted, dbTr ++ f.2.1 ++ e.2.1)
    | StageOutcome.ok =>
      let sTr := storeStage o.storages 0 e.1
      match o.formatter.format e.1 with
      | some fm =>
        let r5 := { e.1 with final_media := some fm }
        (ArchiveOutcome.ok r5,
          dbTr ++ f.2.1 ++ e.2.1 ++ sTr ++ storeFinalEvts o.storages 0 fm ++
            doneEvts o.databases 0 r5)
      | none =>
        (ArchiveOutcome.ok e.1,
          dbTr ++ f.2.1 ++ e.2.1 ++ sTr ++ doneEvts o.databases 0 e.1)

/-- ArchivingOrchestrator.archive. -/
def archive (o : ArchivingOrchestrator) (item : Metadata) :
    ArchiveOutcome × List Event :=
  let r2 := stage2 o item
  let c := cacheLookup o.databases 0 none r2
  match c.1 with
  | some cc =>
    if cc.rearchivable then archiveRest o r2 c.2
    else (ArchiveOutcome.ok cc, c.2 ++ doneEvts o.databases 0 cc)
  | none => archiveRest o r2 c.2

/-- Whether the run loop goes on to the next item after this one. -/
inductive LoopCtl where
  | next
  | stop

/-- ArchivingOrchestrator.feed_item: archive under try; KeyboardInterrupt
calls aborted on every database and exits the process; any other
exception calls failed on every database and returns (loop continues). -/
def feed_item (o : ArchivingOrchestrator) (item : Metadata) :
    LoopCtl × List Event :=
  match archive o item with
  | (ArchiveOutcome.ok _, tr) => (LoopCtl.next, tr)
  | (ArchiveOutcome.failedE, tr) =>
    (LoopCtl.next, tr ++ failedEvts o.databases 0)
  | (ArchiveOutcome.interrupted, tr) =>
    (LoopCtl.stop, tr ++ abortedEvts o.databases 0)

/-- ArchivingOrchestrator.feed: for item in feeder: feed_item(item); the
exit() on interrupt terminates the process, so nothing follows it. -/
def feedItems (o : ArchivingOrchestrator) : List Metadata → List Event
  | [] => []
  | it :: rest =>
    match feed_item o it with
    | (LoopCtl.stop, tr) => tr
    | (LoopCtl.next, tr) => tr ++ feedItems o rest

def feed (o : ArchivingOrchestrator) : List Event :=
  feedItems o o.feeder

/-- The terminal transitions recorded in a trace. -/
def terminalsOf (tr : List Event) : List Event :=
  tr.filter Event.isTerminal

/-- Whether some started call happens after some fetch call in a trace:
the negation of "all started calls precede all fetch calls". -/
def startedAfterFetch : List Event → Bool
  | [] => false
  | e :: tr => (e.isFetchEv && tr.any Event.isStartedEv) || startedAfterFetch tr

/-- The sanitized URL as the spec words it: apply each Fetcher's
sanitize_url exactly once, in registration order, each consuming the
previous output, starting from the original URL. -/
def applyEachInOrder : List Archiver → String → String
  | [], u => u
  | a :: as, u => applyEachInOrder as (a.sanitize_url u)

/-- The cache-lookup call order as the amended claim words it: for each
State Store in registration order, started then fetch, store by store. -/
def startedThenFetchPerStore : List Database → Nat → List Event
  | [], _ => []
  | _ :: ds, i =>
    Event.started i :: Event.dbFetch i :: startedThenFetchPerStore ds (i + 1)

/-- The downloads of the fetchers at indices j, j+1, ..., j+k-1 in order. -/
def downloadRange (j : Nat) : Nat → List Event
  | 0 => []
  | k + 1 => Event.download j :: downloadRange (j + 1) k

/-! Concrete components used to evaluate the engine on closed inputs. -/

def fmtNone : Formatter := ⟨fun _ => none⟩

def itemOf (u : String) : Metadata := { Metadata.empty with url := u }

def c1arch : Archiver :=
  { sanitize_url := fun u => u
    is_rearchivable := fun _ => false
    download := fun m => DownloadResult.ok m }

def c1db : Database := ⟨fun _ => some (itemOf "cached")⟩

def c1o : ArchivingOrchestrator :=
  { feeder := [], formatter := fmtNone, enrichers := [], archivers := [c1arch],
    databases := [c1db], storages := [] }

def c2f1 : Archiver :=
  { c1arch with download := fun _ => DownloadResult.error }

def c2r2 : Metadata := itemOf "r2"

def c2r3 : Metadata := { Metadata.empty with url := "r3", success := true }

def c2f2 : Archiver :=
  { c1arch with download := fun _ => DownloadResult.ok c2r2 }

def c2f3 : Archiver :=
  { c1arch with download := fun _ => DownloadResult.ok c2r3 }

def c9arch : Archiver :=
  { c1arch with download := fun _ => DownloadResult.interrupt }

def dbNone : Database := ⟨fun _ => none⟩

def c9o : ArchivingOrchestrator :=
  { feeder := [], formatter := fmtNone, enrichers := [], archivers := [c9arch],
    databases := [dbNone], storages := [] }

def c8o : ArchivingOrchestrator :=
  { feeder := [], formatter := fmtNone, enrichers := [], archivers := [],
    databases := [dbNone], storages := [] }

def c6a : Archiver :=
  { c1arch with sanitize_url := fun u => u ++ "x" }

def c7r : Metadata := { Metadata.empty with url := "u", rearchivable := true }

section TraceLemmas

lemma perIdx_mem_all {α : Type} (f : Nat → Event) (p : Event → Bool)
    (h : ∀ i, p (f i) = true) :
    ∀ (xs : List α) (k : Nat), ∀ e ∈ perIdx f xs k, p e = true := by
  intro xs
  induction xs with
  | nil => intro k e he; simp [perIdx] at he
  | cons x xs ih =>
    intro k e he
    simp only [perIdx, List.mem_cons] at he
    rcases he with rfl | he
    · exact h k
    · exact ih (k + 1) e he

lemma perIdx_countP {α : Type} (f : Nat → Event) (p : Event → Bool) (t : Nat)
    (h : ∀ i, p (f i) = (i == t)) :
    ∀ (xs : List α) (k : Nat),
      (perIdx f xs k).countP p = if k ≤ t ∧ t < k + xs.length then 1 else 0 := by
  intro xs
  induction xs with
  | nil =>
    intro k
    have : ¬ (k ≤ t ∧ t < k) := by omega
    simp [perIdx, this]
  | cons x xs ih =>
    intro k
    simp only [perIdx, List.countP_cons, ih (k + 1), h k, List.length_cons]
    by_cases hk : k = t
    · subst hk
      have h1 : ¬ (k + 1 ≤ k ∧ k < k + 1 + xs.length) := by omega
      have h2 : k ≤ k ∧ k < k + (xs.length + 1) := by omega
      simp [h1, h2]
    · have hbe : (k == t) = false := by simp [hk]
      have : (k + 1 ≤ t ∧ t < k + 1 + xs.length) ↔
          (k ≤ t ∧ t < k + (xs.length + 1)) := by omega
      simp [hbe, this]

lemma perIdx_filter_self {α : Type} (f : Nat → Event) (p : Event → Bool)
    (h : ∀ i, p (f i) = true) (xs : List α) (k : Nat) :
    (perIdx f xs k).filter p = perIdx f xs k :=
  List.filter_eq_self.2 (perIdx_mem_all f p h xs k)

lemma perIdx_filter_nil {α : Type} (f : Nat → Event) (p : Event → Bool)
    (h : ∀ i, p (f i) = false) (xs : List α) (k : Nat) :
    (perIdx f xs k).filter p = [] := by
  apply List.filter_eq_nil_iff.2
  intro e he
  have := perIdx_mem_all f (fun e => !p e) (by intro i; simp [h i]) xs k e he
  simp at this
  simp [this]

lemma cacheLookup_events (ds : List Database) (i : Nat) (acc : Option Metadata)
    (r : Metadata) :
    ∀ e ∈ (cacheLookup ds i acc r).2,
      e.isStartedEv = true ∨ e.isFetchEv = true := by
  induction ds generalizing i acc with
  | nil => intro e he; simp [cacheLookup] at he
  | cons d ds ih =>
    intro e he
    simp only [cacheLookup, List.mem_cons] at he
    rcases he with rfl | he
    · left; rfl
    rcases he with rfl | he
    · right; rfl
    · exact ih _ _ e he

lemma fetchLoop_events (as : List Archiver) (j : Nat) (m : Metadata) :
    ∀ e ∈ (fetchLoop as j m).2.1, e.isDownload = true := by
  induction as generalizing j m with
  | nil => intro e he; simp [fetchLoop] at he
  | cons a as ih =>
    intro e he
    simp only [fetchLoop] at he
    rcases hd : a.download m with r | _ | _ <;> simp only [hd] at he
    · by_cases hs : (m.merge r).is_success
      · simp [hs] at he; subst he; rfl
      · simp only [hs, Bool.false_eq_true, if_false, List.mem_cons] at he
        rcases he with rfl | he
        · rfl
        · exact ih _ _ e he
    · simp only [List.mem_cons] at he
      rcases he with rfl | he
      · rfl
      · exact ih _ _ e he
    · simp at he; subst he; rfl

lemma enrichLoop_events (es : List Enricher) (k : Nat) (m : Metadata) :
    ∀ e ∈ (enrichLoop es k m).2.1,
      ∃ i, e = Event.enrich i := by
  induction es generalizing k m with
  | nil => intro e he; simp [enrichLoop] at he
  | cons en es ih =>
    intro e he
    simp only [enrichLoop] at he
    rcases hd : en.enrich m with m2 | _ | _ <;> simp only [hd] at he
    · simp only [List.mem_cons] at he
      rcases he with rfl | he
      · exact ⟨k, rfl⟩
      · exact ih _ _ e he
    · simp at he; subst he; exact ⟨k, rfl⟩
    · simp at he; subst he; exact ⟨k, rfl⟩

lemma storeProps_events (si : Nat) (ps : List PropValue) :
    ∀ e ∈ storeProps si ps, ∃ v, e = Event.store si v := by
  induction ps with
  | nil => intro e he; simp [storeProps] at he
  | cons p ps ih =>
    intro e he
    simp only [storeProps, List.mem_append] at he
    rcases he with he | he
    · rcases p with s | m | l
      · simp at he
      · simp at he; subst he; exact ⟨_, rfl⟩
      · rcases l with _ | ⟨q, qs⟩
        · simp at he
        · rcases q with s | m | l2
          · simp at he
          · simp only [List.mem_map] at he
            obtain ⟨v, _, rfl⟩ := he
            exact ⟨v, rfl⟩
          · simp at he
    · exact ih e he

lemma storeMediaList_events (si : Nat) (ms : List Media) :
    ∀ e ∈ storeMediaList si ms, ∃ v, e = Event.store si v := by
  induction ms with
  | nil => intro e he; simp [storeMediaList] at he
  | cons m ms ih =>
    intro e he
    simp only [storeMediaList, List.mem_append] at he
    rcases he with he | he
    · simp only [storeOne, List.mem_cons] at he
      rcases he with rfl | he
      · exact ⟨_, rfl⟩
      · exact storeProps_events si m.properties e he
    · exact ih e he

lemma storeStage_events (ss : List Storage) (si : Nat) (r : Metadata) :
    ∀ e ∈ storeStage ss si r, ∃ i v, e = Event.store i v := by
  induction ss generalizing si with
  | nil => intro e he; simp [storeStage] at he
  | cons s ss ih =>
    intro e he
    simp only [storeStage, List.mem_append] at he
    rcases he with he | he
    · obtain ⟨v, rfl⟩ := storeMediaList_events si r.media e he
      exact ⟨si, v, rfl⟩
    · exact ih _ e he

lemma cacheLookup_noTerminal (ds : List Database) (i : Nat)
    (acc : Option Metadata) (r : Metadata) :
    ∀ e ∈ (cacheLookup ds i acc r).2, e.isTerminal = false := by
  intro e he
  rcases cacheLookup_events ds i acc r e he with h | h <;>
    (rcases e <;> simp_all [Event.isStartedEv, Event.isFetchEv, Event.isTerminal])

lemma fetchLoop_noTerminal (as : List Archiver) (j : Nat) (m : Metadata) :
    ∀ e ∈ (fetchLoop as j m).2.1, e.isTerminal = false := by
  intro e he
  have h := fetchLoop_events as j m e he
  rcases e <;> simp_all [Event.isDownload, Event.isTerminal]

lemma enrichLoop_noTerminal (es : List Enricher) (k : Nat) (m : Metadata) :
    ∀ e ∈ (enrichLoop es k m).2.1, e.isTerminal = false := by
  intro e he
  obtain ⟨i, rfl⟩ := enrichLoop_events es k m e he
  rfl

lemma storeStage_noTerminal (ss : List Storage) (si : Nat) (r : Metadata) :
    ∀ e ∈ storeStage ss si r, e.isTerminal = false := by
  intro e he
  obtain ⟨i, v, rfl⟩ := storeStage_events ss si r e he
  rfl

lemma cacheLookup_noDownload (ds : List Database) (i : Nat)
    (acc : Option Metadata) (r : Metadata) :
    ∀ e ∈ (cacheLookup ds i acc r).2, e.isDownload = false := by
  intro e he
  rcases cacheLookup_events ds i acc r e he with h | h <;>
    (rcases e <;> simp_all [Event.isStartedEv, Event.isFetchEv, Event.isDownload])

end TraceLemmas

section TerminalLemmas

lemma terminalsOf_append (t1 t2 : List Event) :
    terminalsOf (t1 ++ t2) = terminalsOf t1 ++ terminalsOf t2 := by
  simp [terminalsOf]

lemma terminalsOf_nil_of (tr : List Event)
    (h : ∀ e ∈ tr, e.isTerminal = false) : terminalsOf tr = [] := by
  apply List.filter_eq_nil_iff.2
  intro e he
  simp [h e he]

lemma terminalsOf_doneEvts (dbs : List Database) (k : Nat) (m : Metadata) :
    terminalsOf (doneEvts dbs k m) = doneEvts dbs k m :=
  perIdx_filter_self _ _ (fun _ => rfl) dbs k

lemma terminalsOf_failedEvts (dbs : List Database) (k : Nat) :
    terminalsOf (failedEvts dbs k) = failedEvts dbs k :=
  perIdx_filter_self _ _ (fun _ => rfl) dbs k

lemma terminalsOf_abortedEvts (dbs : List Database) (k : Nat) :
    terminalsOf (abortedEvts dbs k) = abortedEvts dbs k :=
  perIdx_filter_self _ _ (fun _ => rfl) dbs k

lemma archiveRest_terminals (o : ArchivingOrchestrator) (r2 : Metadata)
    (dbTr : List Event) (hdb : ∀ e ∈ dbTr, e.isTerminal = false) :
    (∃ m, (archiveRest o r2 dbTr).1 = ArchiveOutcome.ok m ∧
        terminalsOf (archiveRest o r2 dbTr).2 = doneEvts o.databases 0 m) ∨
      (((archiveRest o r2 dbTr).1 = ArchiveOutcome.failedE ∨
          (archiveRest o r2 dbTr).1 = ArchiveOutcome.interrupted) ∧
        terminalsOf (archiveRest o r2 dbTr).2 = []) := by
  have hdbT : terminalsOf dbTr = [] := terminalsOf_nil_of _ hdb
  have hfT : terminalsOf (fetchLoop o.archivers 0 r2).2.1 = [] :=
    terminalsOf_nil_of _ (fetchLoop_noTerminal _ _ _)
  unfold archiveRest
  by_cases hint : (fetchLoop o.archivers 0 r2).2.2
  · right
    simp [hint, terminalsOf_append, hdbT, hfT]
  · have heT : terminalsOf
        (enrichLoop o.enrichers 0 (fetchLoop o.archivers 0 r2).1).2.1 = [] :=
      terminalsOf_nil_of _ (enrichLoop_noTerminal _ _ _)
    rcases ho : (enrichLoop o.enrichers 0 (fetchLoop o.archivers 0 r2).1).2.2 with
      _ | _ | _
    · have hsT : terminalsOf (storeStage o.storages 0
          (enrichLoop o.enrichers 0 (fetchLoop o.archivers 0 r2).1).1) = [] :=
        terminalsOf_nil_of _ (storeStage_noTerminal _ _ _)
      rcases hfm : o.formatter.format
          (enrichLoop o.enrichers 0 (fetchLoop o.archivers 0 r2).1).1 with _ | fm
      · left
        refine ⟨(enrichLoop o.enrichers 0 (fetchLoop o.archivers 0 r2).1).1,
          ?_, ?_⟩ <;>
          simp [hint, ho, hfm, terminalsOf_append, hdbT, hfT, heT, hsT,
            terminalsOf_doneEvts]
      · left
        have hffT : terminalsOf (storeFinalEvts o.storages 0 fm) = [] := by
          apply terminalsOf_nil_of
          intro e he
          have := perIdx_mem_all
            (fun i => Event.store i (PropValue.media fm))
            (fun e => !e.isTerminal) (fun _ => rfl) o.storages 0 e he
          simpa using this
        refine ⟨{ (enrichLoop o.enrichers 0 (fetchLoop o.archivers 0 r2).1).1
            with final_media := some fm }, ?_, ?_⟩ <;>
          simp [hint, ho, hfm, terminalsOf_append, hdbT, hfT, heT, hsT, hffT,
            terminalsOf_doneEvts]
    · right
      simp [hint, ho, terminalsOf_append, hdbT, hfT, heT]
    · right
      simp [hint, ho, terminalsOf_append, hdbT, hfT, heT]

lemma archive_terminals (o : ArchivingOrchestrator) (item : Metadata) :
    (∃ m, (archive o item).1 = ArchiveOutcome.ok m ∧
        terminalsOf (archive o item).2 = doneEvts o.databases 0 m) ∨
      (((archive o item).1 = ArchiveOutcome.failedE ∨
          (archive o item).1 = ArchiveOutcome.interrupted) ∧
        terminalsOf (archive o item).2 = []) := by
  have hdb : ∀ e ∈ (cacheLookup o.databases 0 none (stage2 o item)).2,
      e.isTerminal = false := cacheLookup_noTerminal _ _ _ _
  have hdbT : terminalsOf (cacheLookup o.databases 0 none (stage2 o item)).2 = [] :=
    terminalsOf_nil_of _ hdb
  unfold archive
  rcases hc : (cacheLookup o.databases 0 none (stage2 o item)).1 with _ | cc
  · simp only [hc]
    exact archiveRest_terminals o (stage2 o item) _ hdb
  · by_cases hr : cc.rearchivable
    · simp only [hc, hr, if_true]
      exact archiveRest_terminals o (stage2 o item) _ hdb
    · left
      refine ⟨cc, ?_, ?_⟩ <;>
        simp [hc, hr, terminalsOf_append, hdbT, terminalsOf_doneEvts]

end TerminalLemmas

section StageLemmas

lemma foldl_sanitize_eq (as : List Archiver) :
    ∀ u, as.foldl (fun u a => a.sanitize_url u) u = applyEachInOrder as u := by
  induction as with
  | nil => intro u; rfl
  | cons a as ih => intro u; simp only [List.foldl_cons, applyEachInOrder, ih]

lemma foldl_or_any (g : Archiver → Bool) (as : List Archiver) :
    ∀ b : Bool, as.foldl (fun b a => b || g a) b = (b || as.any g) := by
  induction as with
  | nil => intro b; simp
  | cons a as ih =>
    intro b
    simp only [List.foldl_cons, List.any_cons, ih (b || g a), Bool.or_assoc]

lemma cacheLookup_spec (r : Metadata) :
    ∀ (dbs : List Database) (i : Nat) (acc : Option Metadata),
      (cacheLookup dbs i acc r).2 = startedThenFetchPerStore dbs i ∧
        (cacheLookup dbs i acc r).1 =
          (dbs.filterMap (fun d => d.fetch r)).foldl
            (fun acc lr => some ((acc.getD Metadata.empty).merge lr)) acc := by
  intro dbs
  induction dbs with
  | nil => intro i acc; exact ⟨rfl, rfl⟩
  | cons d ds ih =>
    intro i acc
    rcases hf : d.fetch r with _ | lr
    · constructor
      · simp only [cacheLookup, hf, startedThenFetchPerStore, (ih (i + 1) acc).1]
      · simp only [cacheLookup, hf, List.filterMap_cons, (ih (i + 1) acc).2]
    · constructor
      · simp only [cacheLookup, hf, startedThenFetchPerStore,
          (ih (i + 1) (some ((acc.getD Metadata.empty).merge lr))).1]
      · simp only [cacheLookup, hf, List.filterMap_cons, List.foldl_cons,
          (ih (i + 1) (some ((acc.getD Metadata.empty).merge lr))).2]

lemma archive_not_shortcircuit (o : ArchivingOrchestrator) (item : Metadata)
    (h : shortCircuitB o.databases (stage2 o item) = false) :
    archive o item =
      archiveRest o (stage2 o item)
        (cacheLookup o.databases 0 none (stage2 o item)).2 := by
  unfold shortCircuitB cacheCandidate at h
  unfold archive
  rcases hc : (cacheLookup o.databases 0 none (stage2 o item)).1 with _ | cc
  · simp only [hc]
  · rw [hc] at h
    simp only [Bool.not_eq_false'] at h
    simp only [hc, h, if_true]

lemma fetchLoop_allError (m : Metadata) :
    ∀ (as : List Archiver) (j : Nat),
      (∀ a ∈ as, ∀ m2, a.download m2 = DownloadResult.error) →
        fetchLoop as j m = (m, downloadRange j as.length, false) := by
  intro as
  induction as with
  | nil => intro j _; rfl
  | cons a as ih =>
    intro j h
    have ha : a.download m = DownloadResult.error := h a (by simp) m
    have ih2 := ih (j + 1) (fun a2 ha2 m2 => h a2 (by simp [ha2]) m2)
    simp only [fetchLoop, ha, ih2, List.length_cons, downloadRange]

lemma enrichLoop_cons_head (e : Enricher) (es : List Enricher) (k : Nat)
    (m : Metadata) :
    ∃ t, (enrichLoop (e :: es) k m).2.1 = Event.enrich k :: t := by
  rcases he : e.enrich m with m2 | _ | _ <;> simp [enrichLoop, he]

end StageLemmas

section FetchLemmas

lemma fetchLoop_trace_range (as : List Archiver) :
    ∀ (j : Nat) (m : Metadata),
      ∃ k, k ≤ as.length ∧ (fetchLoop as j m).2.1 = downloadRange j k := by
  induction as with
  | nil => intro j m; exact ⟨0, by simp, rfl⟩
  | cons a as ih =>
    intro j m
    rcases hd : a.download m with r | _ | _
    · rcases hs : (m.merge r).is_success with _ | _
      · obtain ⟨k, hk, htr⟩ := ih (j + 1) (m.merge r)
        refine ⟨k + 1, by simpa using Nat.succ_le_succ hk, ?_⟩
        simp [fetchLoop, hd, hs, downloadRange, htr]
      · exact ⟨1, by simp, by simp [fetchLoop, hd, hs, downloadRange]⟩
    · obtain ⟨k, hk, htr⟩ := ih (j + 1) m
      refine ⟨k + 1, by simpa using Nat.succ_le_succ hk, ?_⟩
      simp [fetchLoop, hd, downloadRange, htr]
    · exact ⟨1, by simp, by simp [fetchLoop, hd, downloadRange]⟩

lemma fetchLoop_exhausted (as : List Archiver) :
    ∀ (j : Nat) (m : Metadata),
      (fetchLoop as j m).2.2 = false →
        (fetchLoop as j m).1.is_success = false →
          (fetchLoop as j m).2.1 = downloadRange j as.length := by
  induction as with
  | nil => intro j m _ _; rfl
  | cons a as ih =>
    intro j m h1 h2
    rcases hd : a.download m with r | _ | _
    · rcases hs : (m.merge r).is_success with _ | _
      · simp only [fetchLoop, hd, hs, Bool.false_eq_true, if_false] at h1 h2 ⊢
        simp only [List.length_cons, downloadRange]
        rw [ih (j + 1) (m.merge r) h1 h2]
      · exfalso
        simp only [fetchLoop, hd, hs, if_true] at h2
        simp [hs] at h2
    · simp only [fetchLoop, hd] at h1 h2 ⊢
      simp only [List.length_cons, downloadRange]
      rw [ih (j + 1) m h1 h2]
    · simp [fetchLoop, hd] at h1

end FetchLemmas

/-- C5: in the STORE_MEDIA stage, for a Persistence Sink and a Media Object
whose properties hold one scalar, one nested Media Object and one list of
two Media Objects, store is invoked exactly 4 times for that subtree
(1 top-level + 1 nested + 2 list entries); the nested Media Objects n, a
and b are arbitrary, so media found inside their own properties are never
stored: resolution is exactly one property-level deep. -/
theorem store_walk_nested_count (si : Nat) (name s : String) (n a b : Media) :
    storeOne si (Media.mk name
        [PropValue.scalar s, PropValue.media n,
          PropValue.plist [PropValue.media a, PropValue.media b]]) =
      [Event.store si (PropValue.media (Media.mk name
          [PropValue.scalar s, PropValue.media n,
            PropValue.plist [PropValue.media a, PropValue.media b]])),
        Event.store si (PropValue.media n),
        Event.store si (PropValue.media a),
        Event.store si (PropValue.media b)] ∧
      (storeOne si (Media.mk name
        [PropValue.scalar s, PropValue.media n,
          PropValue.plist [PropValue.media a, PropValue.media b]])).length = 4 := by
  constructor <;> rfl

/-- C10: in the store-media walk a non-empty list property is classified by
its first element alone: if the first element is a Media Object every
element of the list is stored, non-Media later elements included; if the
first element is not a Media Object no element is stored, Media later
elements included. -/
theorem store_walk_first_element_classifies :
    (∀ (si : Nat) (name : String) (a : Media) (rest : List PropValue),
      storeOne si (Media.mk name [PropValue.plist (PropValue.media a :: rest)]) =
        Event.store si (PropValue.media
            (Media.mk name [PropValue.plist (PropValue.media a :: rest)])) ::
          (PropValue.media a :: rest).map (Event.store si)) ∧
    (∀ (si : Nat) (name : String) (q : PropValue) (rest : List PropValue),
      q.isMedia = false →
        storeOne si (Media.mk name [PropValue.plist (q :: rest)]) =
          [Event.store si (PropValue.media
            (Media.mk name [PropValue.plist (q :: rest)]))]) := by
  constructor
  · intro si name a rest
    simp [storeOne, storeProps, Media.properties]
  · intro si name q rest hq
    rcases q with s | m | l
    · simp [storeOne, storeProps, Media.properties]
    · simp [PropValue.isMedia] at hq
    · simp [storeOne, storeProps, Media.properties]

/-- C10 witness: a list whose first element is a scalar and whose second is
a Media Object stores nothing from the list. -/
theorem store_walk_first_element_classifies_witness :
    storeOne 0 (Media.mk "m" [PropValue.plist
        [PropValue.scalar "x", PropValue.media (Media.mk "inner" [])]]) =
      [Event.store 0 (PropValue.media (Media.mk "m" [PropValue.plist
        [PropValue.scalar "x", PropValue.media (Media.mk "inner" [])]]))] :=
  store_walk_first_element_classifies.2 0 "m" (PropValue.scalar "x")
    [PropValue.media (Media.mk "inner" [])] rfl

/-- C6: for a record carrying the input URL and no side key yet, the final
URL set by the SANITIZE stage equals applying each Fetcher's sanitize_url
exactly once, in registration order, each consuming the previous output,
starting from the original URL; and the original URL sits under the side
key exactly when the final URL differs from it. -/
theorem sanitize_stage_composition (as : List Archiver) (item : Metadata)
    (h : item.original_url = none) :
    (sanitizeStage as item).url = applyEachInOrder as item.url ∧
      ((sanitizeStage as item).original_url = some item.url ↔
        (sanitizeStage as item).url ≠ item.url) := by
  unfold sanitizeStage
  rw [foldl_sanitize_eq]
  by_cases heq : item.url = applyEachInOrder as item.url
  · rw [if_neg (fun hc => hc heq)]
    refine ⟨rfl, ?_⟩
    constructor
    · intro hc
      rw [h] at hc
      exact absurd hc (by simp)
    · intro hc
      exact absurd (heq.symm) hc
  · rw [if_pos heq]
    refine ⟨rfl, ?_⟩
    constructor
    · intro _
      exact fun hc => heq hc.symm
    · intro _
      rfl

/-- C6 witness: one Fetcher appending x to the URL; the sanitized URL is ux
and the original is recorded. -/
theorem sanitize_stage_composition_witness :
    (sanitizeStage [c6a] (itemOf "u")).url = applyEachInOrder [c6a] "u" ∧
      ((sanitizeStage [c6a] (itemOf "u")).original_url = some "u" ↔
        (sanitizeStage [c6a] (itemOf "u")).url ≠ "u") :=
  sanitize_stage_composition [c6a] (itemOf "u") rfl

/-- C7 as stated is false on the code: the REARCHIVABLE_CHECK stage ORs
each Fetcher's is_rearchivable result into the record's existing flag, so
a record whose flag is already true stays true even though no registered
Fetcher returns true. -/
theorem rearch_or_counterexample :
    ¬ (((rearchStage [c1arch] c7r).rearchivable = true) ↔
        [c1arch].any (fun a => a.is_rearchivable c7r.url) = true) := by
  decide

/-- C7 amended: after the REARCHIVABLE_CHECK stage the rearchivable flag
equals the record's prior flag OR-ed with the OR-reduction of every
registered Fetcher's is_rearchivable on the record's (sanitized) URL. -/
theorem rearch_stage_or_reduction (as : List Archiver) (r : Metadata) :
    (rearchStage as r).rearchivable =
      (r.rearchivable || as.any (fun a => a.is_rearchivable r.url)) := by
  unfold rearchStage
  exact foldl_or_any _ as r.rearchivable

/-- C4 as stated is false on the code: the cache-lookup loop interleaves
started and fetch store by store, so with two State Stores the first
store's fetch happens before the second store's started. -/
theorem cache_lookup_order_counterexample :
    cacheTrace [dbNone, dbNone] (itemOf "u") =
        [Event.started 0, Event.dbFetch 0, Event.started 1, Event.dbFetch 1] ∧
      startedAfterFetch (cacheTrace [dbNone, dbNone] (itemOf "u")) = true := by
  constructor <;> rfl

/-- C4 amended: during CACHE_LOOKUP the engine iterates the State Stores in
registration order calling started then fetch for each store in turn (so
each store's started precedes its own fetch, but not the fetch of earlier
stores), and every non-empty fetch result is merged into a single cache
candidate. -/
theorem cache_lookup_per_store_order (dbs : List Database) (r : Metadata) :
    cacheTrace dbs r = startedThenFetchPerStore dbs 0 ∧
      cacheCandidate dbs r =
        (dbs.filterMap (fun d => d.fetch r)).foldl
          (fun acc lr => some ((acc.getD Metadata.empty).merge lr)) none :=
  ⟨(cacheLookup_spec r dbs 0 none).1, (cacheLookup_spec r dbs 0 none).2⟩

/-- C1: when the merged cache candidate exists and its rearchivable flag is
false, archive returns the cached record, emits done on every State Store
with that record right after the cache-lookup calls, and never calls any
Fetcher's download. -/
theorem archive_cache_short_circuit (o : ArchivingOrchestrator)
    (item cc : Metadata)
    (hcc : cacheCandidate o.databases (stage2 o item) = some cc)
    (hre : cc.rearchivable = false) :
    archive o item =
      (ArchiveOutcome.ok cc,
        cacheTrace o.databases (stage2 o item) ++ doneEvts o.databases 0 cc) ∧
      ∀ e ∈ (archive o item).2, e.isDownload = false := by
  unfold cacheCandidate at hcc
  have h1 : archive o item =
      (ArchiveOutcome.ok cc,
        (cacheLookup o.databases 0 none (stage2 o item)).2 ++
          doneEvts o.databases 0 cc) := by
    unfold archive
    simp only [hcc, hre, Bool.false_eq_true, if_false]
  refine ⟨h1, ?_⟩
  rw [h1]
  intro e he
  simp only [List.mem_append] at he
  rcases he with he | he
  · exact cacheLookup_noDownload _ _ _ _ e he
  · have := perIdx_mem_all (fun i => Event.done i cc)
      (fun e => !e.isDownload) (fun _ => rfl) o.databases 0 e he
    simpa using this

/-- C1 witness: one State Store returning a cached non-rearchivable record;
archive returns it. -/
theorem archive_cache_short_circuit_witness :
    (archive c1o (itemOf "u")).1 = ArchiveOutcome.ok (itemOf "cached") := by
  rw [(archive_cache_short_circuit c1o (itemOf "u") (itemOf "cached")
    rfl rfl).1]

/-- C2: the FETCH stage calls download on the Fetchers at consecutive
indices from 0 in registration order; if the loop is not interrupted and
the final record is non-success every Fetcher was called; in the spec's
scenario F1 raises, F2 returns non-success, F3 returns success: all three
run in order, F3 ends the loop and the tail is never called; and when
every Fetcher raises, the record keeps its success flag and the first
Enricher is still invoked (processing proceeds to ENRICH). -/
theorem fetch_loop_contract :
    (∀ (as : List Archiver) (j : Nat) (m : Metadata),
        ∃ k, k ≤ as.length ∧ (fetchLoop as j m).2.1 = downloadRange j k) ∧
      (∀ (as : List Archiver) (j : Nat) (m : Metadata),
        (fetchLoop as j m).2.2 = false →
          (fetchLoop as j m).1.is_success = false →
            (fetchLoop as j m).2.1 = downloadRange j as.length) ∧
      (∀ (f1 f2 f3 : Archiver) (rest : List Archiver) (m r2 r3 : Metadata),
        f1.download m = DownloadResult.error →
          f2.download m = DownloadResult.ok r2 →
            (m.merge r2).is_success = false →
              f3.download (m.merge r2) = DownloadResult.ok r3 →
                ((m.merge r2).merge r3).is_success = true →
                  fetchLoop (f1 :: f2 :: f3 :: rest) 0 m =
                    ((m.merge r2).merge r3,
                      [Event.download 0, Event.download 1, Event.download 2],
                      false)) ∧
      (∀ (o : ArchivingOrchestrator) (item : Metadata) (e0 : Enricher)
          (es : List Enricher),
        o.enrichers = e0 :: es →
          shortCircuitB o.databases (stage2 o item) = false →
            (∀ a ∈ o.archivers, ∀ m2, a.download m2 = DownloadResult.error) →
              (fetchLoop o.archivers 0 (stage2 o item)).1.is_success =
                  (stage2 o item).is_success ∧
                Event.enrich 0 ∈ (archive o item).2) := by
  refine ⟨fetchLoop_trace_range, fetchLoop_exhausted, ?_, ?_⟩
  · intro f1 f2 f3 rest m r2 r3 h1 h2 h3 h4 h5
    simp [fetchLoop, h1, h2, h3, h4, h5]
  · intro o item e0 es he hsc hall
    have hfl := fetchLoop_allError (stage2 o item) o.archivers 0 hall
    constructor
    · rw [hfl]
    · rw [archive_not_shortcircuit o item hsc]
      obtain ⟨t, ht⟩ := enrichLoop_cons_head e0 es 0
        (fetchLoop o.archivers 0 (stage2 o item)).1
      rw [hfl] at ht
      unfold archiveRest
      simp only [hfl, he]
      rcases ho : (enrichLoop (e0 :: es) 0 (stage2 o item)).2.2 with _ | _ | _
      · rcases hfm : o.formatter.format (enrichLoop (e0 :: es) 0
            (stage2 o item)).1 with _ | fm <;>
          simp [ho, hfm, ht]
      · simp [ho, ht]
      · simp [ho, ht]

/-- C2 witness: the concrete scenario with F1 raising, F2 non-success and
F3 success. -/
theorem fetch_loop_contract_witness :
    fetchLoop [c2f1, c2f2, c2f3] 0 (itemOf "u") =
      (((itemOf "u").merge c2r2).merge c2r3,
        [Event.download 0, Event.download 1, Event.download 2], false) :=
  fetch_loop_contract.2.2.1 c2f1 c2f2 c2f3 [] (itemOf "u") c2r2 c2r3
    rfl rfl rfl rfl rfl

/-- C3: in the run loop a keyboard interrupt during an item calls aborted
on every State Store and ends the loop with that item's trace (no further
items are processed); any other uncaught error calls failed on every
State Store and the loop continues with the remaining items. -/
theorem run_loop_isolation (o : ArchivingOrchestrator) (item : Metadata)
    (rest : List Metadata) :
    ((archive o item).1 = ArchiveOutcome.interrupted →
        feedItems o (item :: rest) =
          (archive o item).2 ++ abortedEvts o.databases 0) ∧
      ((archive o item).1 = ArchiveOutcome.failedE →
        feedItems o (item :: rest) =
          (archive o item).2 ++ failedEvts o.databases 0 ++
            feedItems o rest) := by
  rcases harch : archive o item with ⟨out, tr⟩
  constructor
  · intro h
    simp only at h
    subst h
    simp [feedItems, feed_item, harch]
  · intro h
    simp only at h
    subst h
    simp [feedItems, feed_item, harch]

/-- C3 witness: a single Fetcher raising a keyboard interrupt aborts the
item and drops the remaining feed item. -/
theorem run_loop_isolation_witness :
    feedItems c9o [itemOf "u", itemOf "v"] =
      (archive c9o (itemOf "u")).2 ++ abortedEvts c9o.databases 0 :=
  (run_loop_isolation c9o (itemOf "u") [itemOf "v"]).1 rfl

/-- C9: a keyboard interrupt inside a Fetcher's download is not caught by
the fetch loop's per-Fetcher handler: archive ends interrupted right
after that download (no later Fetcher runs), and feed_item emits aborted
on every State Store and stops the run. -/
theorem keyboard_interrupt_escapes (o : ArchivingOrchestrator)
    (item : Metadata) (f1 : Archiver) (rest : List Archiver)
    (ha : o.archivers = f1 :: rest)
    (hsc : shortCircuitB o.databases (stage2 o item) = false)
    (hint : f1.download (stage2 o item) = DownloadResult.interrupt) :
    archive o item =
      (ArchiveOutcome.interrupted,
        cacheTrace o.databases (stage2 o item) ++ [Event.download 0]) ∧
      feed_item o item =
        (LoopCtl.stop,
          cacheTrace o.databases (stage2 o item) ++ [Event.download 0] ++
            abortedEvts o.databases 0) := by
  have hfl : fetchLoop o.archivers 0 (stage2 o item) =
      (stage2 o item, [Event.download 0], true) := by
    rw [ha]
    simp [fetchLoop, hint]
  have h1 : archive o item =
      (ArchiveOutcome.interrupted,
        cacheTrace o.databases (stage2 o item) ++ [Event.download 0]) := by
    rw [archive_not_shortcircuit o item hsc]
    unfold archiveRest
    simp only [hfl, if_true, cacheTrace]
  refine ⟨h1, ?_⟩
  simp [feed_item, h1]

/-- C9 witness: the concrete interrupting Fetcher. -/
theorem keyboard_interrupt_escapes_witness :
    feed_item c9o (itemOf "u") =
      (LoopCtl.stop,
        [Event.started 0, Event.dbFetch 0, Event.download 0,
          Event.aborted 0]) := by
  rw [(keyboard_interrupt_escapes c9o (itemOf "u") c9arch [] rfl rfl rfl).2]
  rfl

section CountLemmas

lemma isTerminalFor_and (i : Nat) (e : Event) :
    (Event.isTerminalFor i e && Event.isTerminal e) = Event.isTerminalFor i e := by
  cases e <;> simp [Event.isTerminalFor, Event.isTerminal]

lemma countP_terminalsOf (tr : List Event) (i : Nat) :
    tr.countP (Event.isTerminalFor i) =
      (terminalsOf tr).countP (Event.isTerminalFor i) := by
  unfold terminalsOf
  rw [List.countP_filter]
  simp only [isTerminalFor_and]

lemma countP_doneEvts (dbs : List Database) (k : Nat) (m : Metadata) (i : Nat) :
    (doneEvts dbs k m).countP (Event.isTerminalFor i) =
      if k ≤ i ∧ i < k + dbs.length then 1 else 0 :=
  perIdx_countP _ _ i (fun _ => rfl) dbs k

lemma countP_failedEvts (dbs : List Database) (k : Nat) (i : Nat) :
    (failedEvts dbs k).countP (Event.isTerminalFor i) =
      if k ≤ i ∧ i < k + dbs.length then 1 else 0 :=
  perIdx_countP _ _ i (fun _ => rfl) dbs k

lemma countP_abortedEvts (dbs : List Database) (k : Nat) (i : Nat) :
    (abortedEvts dbs k).countP (Event.isTerminalFor i) =
      if k ≤ i ∧ i < k + dbs.length then 1 else 0 :=
  perIdx_countP _ _ i (fun _ => rfl) dbs k

end CountLemmas

/-- C8: every item processed by the run loop reaches exactly one terminal
transition: the terminal calls in its feed_item trace are exactly one
done per State Store, or one failed per State Store, or one aborted per
State Store — never zero, never more than one, never a mix — and each
registered State Store observes exactly one terminal call. -/
theorem terminal_exactly_once (o : ArchivingOrchestrator) (item : Metadata) :
    ((∃ m, terminalsOf (feed_item o item).2 = doneEvts o.databases 0 m) ∨
        terminalsOf (feed_item o item).2 = failedEvts o.databases 0 ∨
        terminalsOf (feed_item o item).2 = abortedEvts o.databases 0) ∧
      ∀ i, i < o.databases.length →
        (feed_item o item).2.countP (Event.isTerminalFor i) = 1 := by
  rcases archive_terminals o item with ⟨m, hout, hterm⟩ | ⟨hout, hterm⟩
  · rcases harch : archive o item with ⟨out, tr⟩
    rw [harch] at hout hterm
    simp only at hout hterm
    subst hout
    have hfi : feed_item o item = (LoopCtl.next, tr) := by
      simp [feed_item, harch]
    rw [hfi]
    constructor
    · exact Or.inl ⟨m, hterm⟩
    · intro i hi
      rw [countP_terminalsOf, hterm, countP_doneEvts]
      rw [if_pos ⟨Nat.zero_le i, by omega⟩]
  · rcases harch : archive o item with ⟨out, tr⟩
    rw [harch] at hout hterm
    simp only at hout hterm
    rcases hout with hout | hout <;> subst hout
    · have hfi : feed_item o item =
          (LoopCtl.next, tr ++ failedEvts o.databases 0) := by
        simp [feed_item, harch]
      rw [hfi]
      constructor
      · exact Or.inr (Or.inl (by
          rw [terminalsOf_append, hterm, terminalsOf_failedEvts]
          simp))
      · intro i hi
        rw [List.countP_append, countP_terminalsOf, hterm,
          countP_failedEvts]
        simp only [List.countP_nil]
        rw [if_pos ⟨Nat.zero_le i, by omega⟩]
    · have hfi : feed_item o item =
          (LoopCtl.stop, tr ++ abortedEvts o.databases 0) := by
        simp [feed_item, harch]
      rw [hfi]
      constructor
      · exact Or.inr (Or.inr (by
          rw [terminalsOf_append, hterm, terminalsOf_abortedEvts]
          simp))
      · intro i hi
        rw [List.countP_append, countP_terminalsOf, hterm,
          countP_abortedEvts]
        simp only [List.countP_nil]
        rw [if_pos ⟨Nat.zero_le i, by omega⟩]

/-- C8 witness: a run with one State Store and no Fetchers ends with
exactly one terminal call for that store. -/
theorem terminal_exactly_once_witness :
    (feed_item c8o (itemOf "u")).2.countP (Event.isTerminalFor 0) = 1 :=
  (terminal_exactly_once c8o (itemOf "u")).2 0 (by decide)

end AutoArchiver
